import Mathlib

/-!
Verification of the masterchat core: a shallow embedding of the
continuation-token codec (`ProtoBufReader`), the fetch-and-classify loop
(`Masterchat.fetch`), the polling loop (`Masterchat.iterate`), the session
lifecycle (`Masterchat.listen` / `Masterchat.stop`) and the multi-stream
registry (`StreamPool`), together with proofs of the specification's claims.

Buffers are modelled as `List Nat` of byte values; JavaScript numbers and
BigInts are modelled as `Nat` (or `Int` where differences may be negative);
`undefined`/`null` results are modelled with `Option` or a dedicated result
type.
-/

namespace Masterchat

/-! ## TokenCodec: ProtoBufReader

Embedding of the reader class. `Buffer.slice(start, end)` clamps its
bounds to the buffer, so it is `drop`/`take`; an out-of-bounds index read
(`buf[i]` with `i >= length`) yields `undefined`, whose bitwise-AND with
`0x80` is `0`, so indexing is modelled with default value `0` where only
that test consumes it. The `save`/`rewind` lookahead pair of the source is
not needed by any claim and is omitted. -/

/-- `Buffer.slice start stop`: the bytes in positions `[start, stop)`,
clamped to the buffer. -/
def jsSlice (buf : List Nat) (start stop : Nat) : List Nat :=
  (buf.drop start).take (stop - start)

structure ProtoBufReader where
  buf : List Nat
  c : Nat
  deriving Repr, DecidableEq

/-- Result of one reader operation: `null` ("no more data"), a value plus
the advanced reader, or a thrown `ERR_OUT_OF_RANGE` (Node's
`readUInt32LE`/`readBigUInt64LE` throw when the read extends past the
buffer). -/
inductive ReadResult (α : Type) where
  | null
  | ok (value : α) (r : ProtoBufReader)
  | rangeError
  deriving Repr, DecidableEq

namespace ProtoBufReader

/-- `splitHeader(n) = [n >> 3n, Number(n & 0x7n)]`. -/
def splitHeader (n : Nat) : Nat × Nat :=
  (n >>> 3, n &&& 0x7)

/-- The `reduce` of `parseVariant`, carrying the byte index and accumulator:
`(r, b, i) => r | ((BigInt(b) & 0x7fn) << (BigInt(i) * 7n))`. -/
def parseVariantAux : Nat → Nat → List Nat → Nat
  | _, r, [] => r
  | i, r, b :: rest => parseVariantAux (i + 1) (r ||| ((b &&& 0x7f) <<< (i * 7))) rest

/-- `parseVariant(buf)`: fold every byte's low 7 bits into the result,
least-significant group first. -/
def parseVariant (buf : List Nat) : Nat :=
  parseVariantAux 0 0 buf

/-- `isEnded()`: the cursor sits exactly at the end of the buffer. -/
def isEnded (r : ProtoBufReader) : Bool :=
  r.c == r.buf.length

/-- `remainingBytes()`. -/
def remainingBytes (r : ProtoBufReader) : Nat :=
  r.buf.length - r.c

/-- `eat(bytes)`: null at end of buffer, otherwise slice and advance (the
cursor may move past the end; the slice is clamped). -/
def eat (r : ProtoBufReader) (bytes : Nat) : ReadResult (List Nat) :=
  if r.isEnded then .null
  else .ok (jsSlice r.buf r.c (r.c + bytes)) { r with c := r.c + bytes }

/-- `buf.readUInt32LE(off)` for an in-range offset. -/
def readUInt32LE (buf : List Nat) (off : Nat) : Nat :=
  buf.getD off 0 + buf.getD (off + 1) 0 * 2 ^ 8 +
    buf.getD (off + 2) 0 * 2 ^ 16 + buf.getD (off + 3) 0 * 2 ^ 24

/-- `buf.readBigUInt64LE(off)` for an in-range offset. -/
def readBigUInt64LE (buf : List Nat) (off : Nat) : Nat :=
  readUInt32LE buf off + readUInt32LE buf (off + 4) * 2 ^ 32

/-- `eatUInt32()`: null at end of buffer; Node throws `ERR_OUT_OF_RANGE`
when fewer than 4 bytes remain. -/
def eatUInt32 (r : ProtoBufReader) : ReadResult Nat :=
  if r.isEnded then .null
  else if r.c + 4 ≤ r.buf.length then
    .ok (readUInt32LE r.buf r.c) { r with c := r.c + 4 }
  else .rangeError

/-- `eatUInt64()`: null at end of buffer; Node throws `ERR_OUT_OF_RANGE`
when fewer than 8 bytes remain. -/
def eatUInt64 (r : ProtoBufReader) : ReadResult Nat :=
  if r.isEnded then .null
  else if r.c + 8 ≤ r.buf.length then
    .ok (readBigUInt64LE r.buf r.c) { r with c := r.c + 8 }
  else .rangeError

/-- Number of steps of `while (this.buf[this.c] & 0x80) this.c += 1;`,
expressed on the suffix of the buffer from the cursor: an out-of-bounds
read is `undefined` and `undefined & 0x80` is `0`, so the loop also halts
at the end of the list. -/
def varSplit : List Nat → Nat
  | [] => 0
  | b :: rest => if b &&& 0x80 ≠ 0 then varSplit rest + 1 else 0

/-- `eatVariant()`: null at end of buffer, otherwise scan to the first byte
without the continuation bit (or the end of the buffer), slice the scanned
bytes inclusive, and parse them. -/
def eatVariant (r : ProtoBufReader) : ReadResult Nat :=
  if r.isEnded then .null
  else
    let start := r.c
    let stop := r.c + varSplit (r.buf.drop r.c)
    let rawBuf := jsSlice r.buf start (stop + 1)
    .ok (parseVariant rawBuf) { r with c := stop + 1 }

end ProtoBufReader

/-! ## TokenCodec: encoder

The varint/field encoder lives in `protobuf/assembler` which is not among
the provided sources; it is modelled from the spec. -/

/-- Modelled from the spec: the varint encoder of `protobuf/assembler`
(not in the provided sources). Each byte contributes its low 7 bits,
least-significant group first, with the high bit as continuation flag. -/
def encodeVarint (n : Nat) : List Nat :=
  if n < 0x80 then [n]
  else (0x80 ||| n % 0x80) :: encodeVarint (n / 0x80)
  decreasing_by exact Nat.div_lt_self (by omega) (by omega)

/-- A decoded view of one token field: header `(fieldNumber << 3) | wireType`
followed by a varint payload. -/
structure TokenField where
  fieldNumber : Nat
  wireType : Nat
  value : Nat
  deriving Repr, DecidableEq

/-- Modelled from the spec: field encoding of `protobuf/assembler` (not in
the provided sources) — a `(field-number, wire-type)` header varint followed
by a payload varint. -/
def encodeField (f : TokenField) : List Nat :=
  encodeVarint ((f.fieldNumber <<< 3) ||| f.wireType) ++ encodeVarint f.value

/-- Modelled from the spec: encoding of a flat field set. -/
def encodeFields (fs : List TokenField) : List Nat :=
  (fs.map encodeField).flatten

/-- Modelled from the spec: the token decode routine (the decoders in
`protobuf/parser` are not in the provided sources), composed from the
source reader's `eatVariant` and `splitHeader`: read header/payload varint
pairs until the end of the message. Fuel bounds the recursion by the buffer
length. -/
def decodeFields : Nat → ProtoBufReader → Option (List TokenField)
  | 0, _ => none
  | fuel + 1, r =>
    if r.isEnded then some []
    else
      match r.eatVariant with
      | .ok h r1 =>
        match r1.eatVariant with
        | .ok v r2 =>
          match decodeFields fuel r2 with
          | some fs => some (⟨(ProtoBufReader.splitHeader h).1,
              (ProtoBufReader.splitHeader h).2, v⟩ :: fs)
          | none => none
        | _ => none
      | _ => none

/-- Decode a whole token byte sequence. -/
def decode (bytes : List Nat) : Option (List TokenField) :=
  decodeFields (bytes.length + 1) { buf := bytes, c := 0 }

/-! ## Varint lemmas -/

/-- Spec-level recursion for `parseVariant`, without the index accumulator. -/
def pv : List Nat → Nat
  | [] => 0
  | b :: rest => (b &&& 0x7f) ||| (pv rest <<< 7)

theorem shiftLeft_or_distrib (x y k : Nat) :
    (x ||| y) <<< k = (x <<< k) ||| (y <<< k) := by
  apply Nat.eq_of_testBit_eq
  intro i
  simp [Nat.testBit_shiftLeft, Nat.testBit_or, Bool.and_or_distrib_left]

theorem parseVariantAux_eq (bytes : List Nat) :
    ∀ i r, ProtoBufReader.parseVariantAux i r bytes = r ||| (pv bytes <<< (i * 7)) := by
  induction bytes with
  | nil => intro i r; simp [ProtoBufReader.parseVariantAux, pv, Nat.zero_shiftLeft]
  | cons b rest ih =>
    intro i r
    rw [ProtoBufReader.parseVariantAux, ih, pv, shiftLeft_or_distrib, Nat.or_assoc]
    congr 1
    rw [Nat.shiftLeft_eq, Nat.shiftLeft_eq, Nat.shiftLeft_eq, Nat.shiftLeft_eq,
      Nat.mul_assoc, ← Nat.pow_add]
    ring_nf

theorem parseVariant_eq_pv (bytes : List Nat) :
    ProtoBufReader.parseVariant bytes = pv bytes := by
  rw [ProtoBufReader.parseVariant, parseVariantAux_eq]
  simp

theorem lor_two_pow_eq_add {b : Nat} (i : Nat) (hb : b < 2 ^ i) (a : Nat) :
    (2 ^ i * a) ||| b = 2 ^ i * a + b :=
  (Nat.mul_add_lt_is_or hb a).symm

theorem and_0x7f (b : Nat) : b &&& 0x7f = b % 0x80 := by
  have h := Nat.and_pow_two_sub_one_eq_mod b 7
  norm_num at h
  exact h

theorem lor_0x80_eq_add (a : Nat) (h : a < 0x80) : 0x80 ||| a = 0x80 + a := by
  have := lor_two_pow_eq_add 7 (b := a) (by norm_num [h]) 1
  norm_num at this
  exact this

theorem lor_mul_0x80_eq_add (a b : Nat) (h : b < 0x80) :
    (0x80 * a) ||| b = 0x80 * a + b := by
  have h2 : (0x80 : Nat) = 2 ^ 7 := by norm_num
  rw [h2]
  exact (Nat.mul_add_lt_is_or (h2 ▸ h) a).symm

theorem pv_encodeVarint (n : Nat) : pv (encodeVarint n) = n := by
  induction n using Nat.strong_induction_on with
  | _ n ih =>
    rw [encodeVarint]
    by_cases h : n < 0x80
    · simp only [h, if_pos]
      rw [pv, pv, and_0x7f, Nat.zero_shiftLeft, Nat.or_zero, Nat.mod_eq_of_lt h]
    · simp only [h, if_neg, not_false_iff]
      rw [pv, ih (n / 0x80) (Nat.div_lt_self (by omega) (by omega)),
        lor_0x80_eq_add (n % 0x80) (Nat.mod_lt n (by omega)), and_0x7f]
      have h128 : (0x80 + n % 0x80) % 0x80 = n % 0x80 := by omega
      rw [h128, Nat.shiftLeft_eq, Nat.mul_comm, show (2 : Nat) ^ 7 = 0x80 from by norm_num,
        Nat.or_comm, lor_mul_0x80_eq_add _ _ (Nat.mod_lt n (by omega))]
      omega

/-- Claim C6: for every integer, decoding the varint byte sequence that
encodes it (low 7 bits per byte, least-significant group first, high bit
as continuation flag) returns the exact original integer; no overflow can
occur since values are BigInts, so this covers the 7-bit boundaries 0,
127, 128, 16383, 16384 and all values up to (and beyond) 64 bits. -/
theorem claim_C6_varint_roundtrip (n : Nat) :
    ProtoBufReader.parseVariant (encodeVarint n) = n := by
  rw [parseVariant_eq_pv, pv_encodeVarint]

theorem low_byte_and (n : Nat) (h : n < 0x80) : n &&& 0x80 = 0 := by
  have h2 : (0x80 : Nat) = 2 ^ 7 := by norm_num
  rw [h2, Nat.and_two_pow, Nat.testBit_lt_two_pow (h2 ▸ h)]
  simp

theorem cont_byte_and (a : Nat) (h : a < 0x80) : (0x80 + a) &&& 0x80 ≠ 0 := by
  have h2 : (0x80 : Nat) = 2 ^ 7 := by norm_num
  rw [h2, Nat.and_two_pow, Nat.testBit_to_div_mod]
  have hd : (2 ^ 7 + a) / 2 ^ 7 % 2 = 1 := by
    have h1 : (2 ^ 7 + a) / 2 ^ 7 = 1 := by
      rw [show (2 : Nat) ^ 7 = 0x80 from by norm_num]
      omega
    rw [h1]
  rw [hd]
  norm_num

theorem encodeVarint_ne_nil (n : Nat) : encodeVarint n ≠ [] := by
  rw [encodeVarint]
  split <;> simp

theorem varSplit_encodeVarint (n : Nat) :
    ∀ rest, ProtoBufReader.varSplit (encodeVarint n ++ rest) + 1 =
      (encodeVarint n).length := by
  induction n using Nat.strong_induction_on with
  | _ n ih =>
    intro rest
    rw [encodeVarint]
    by_cases h : n < 0x80
    · simp only [h, if_pos, List.cons_append, List.nil_append]
      rw [ProtoBufReader.varSplit]
      simp [low_byte_and n h]
    · simp only [h, if_neg, not_false_iff, List.cons_append]
      rw [ProtoBufReader.varSplit, lor_0x80_eq_add (n % 0x80) (Nat.mod_lt n (by omega)),
        if_pos (cont_byte_and (n % 0x80) (Nat.mod_lt n (by omega))),
        List.length_cons, ih (n / 0x80) (Nat.div_lt_self (by omega) (by omega)) rest]

/-- The reader, positioned on an encoded varint, consumes exactly its bytes
and returns the encoded value. -/
theorem eatVariant_encode (r : ProtoBufReader) (n : Nat) (rest : List Nat)
    (h : r.buf.drop r.c = encodeVarint n ++ rest) :
    r.eatVariant = .ok n { buf := r.buf, c := r.c + (encodeVarint n).length } := by
  have hlenpos : 0 < (encodeVarint n).length :=
    List.length_pos.mpr (encodeVarint_ne_nil n)
  have hc : r.c < r.buf.length := by
    have hl := congrArg List.length h
    rw [List.length_drop, List.length_append] at hl
    omega
  have hende : r.isEnded = false := by
    simp only [ProtoBufReader.isEnded, beq_eq_false_iff_ne]
    omega
  rw [ProtoBufReader.eatVariant, hende]
  simp only [Bool.false_eq_true, if_neg, not_false_iff]
  have hsplit : ProtoBufReader.varSplit (r.buf.drop r.c) + 1 = (encodeVarint n).length := by
    rw [h, varSplit_encodeVarint]
  have hslice : jsSlice r.buf r.c (r.c + ProtoBufReader.varSplit (r.buf.drop r.c) + 1) =
      encodeVarint n := by
    rw [jsSlice, h]
    have harith : r.c + ProtoBufReader.varSplit (r.buf.drop r.c) + 1 - r.c =
        (encodeVarint n).length := by omega
    rw [h] at harith
    rw [harith, List.take_left]
  have hval : ProtoBufReader.parseVariant
      (jsSlice r.buf r.c (r.c + ProtoBufReader.varSplit (r.buf.drop r.c) + 1)) = n := by
    rw [hslice, parseVariant_eq_pv, pv_encodeVarint]
  have hc2 : r.c + ProtoBufReader.varSplit (r.buf.drop r.c) + 1 =
      r.c + (encodeVarint n).length := by omega
  rw [hval, hc2]

/-- After consuming an encoded varint, the rest of the buffer follows. -/
theorem drop_after_encode (r : ProtoBufReader) (n : Nat) (rest : List Nat)
    (h : r.buf.drop r.c = encodeVarint n ++ rest) :
    r.buf.drop (r.c + (encodeVarint n).length) = rest := by
  rw [← List.drop_drop, h, List.drop_left]

theorem splitHeader_encode (f w : Nat) (hw : w < 8) :
    ProtoBufReader.splitHeader ((f <<< 3) ||| w) = (f, w) := by
  have h8 : (f <<< 3) ||| w = 8 * f + w := by
    rw [Nat.shiftLeft_eq, Nat.mul_comm, show (2 : Nat) ^ 3 = 8 from by norm_num]
    have h := lor_two_pow_eq_add 3 (b := w) (by norm_num [hw]) f
    norm_num at h
    exact h
  rw [ProtoBufReader.splitHeader, h8, Nat.shiftRight_eq_div_pow]
  have hd : (8 * f + w) / 2 ^ 3 = f := by
    rw [show (2 : Nat) ^ 3 = 8 from by norm_num]
    omega
  have hm : (8 * f + w) &&& 0x7 = w := by
    have h7 := Nat.and_pow_two_sub_one_eq_mod (8 * f + w) 3
    norm_num at h7
    rw [h7]
    omega
  rw [hd, hm]

theorem decodeFields_encodeFields (fs : List TokenField)
    (hw : ∀ f ∈ fs, f.wireType < 8) :
    ∀ (fuel : Nat) (r : ProtoBufReader), r.buf.drop r.c = encodeFields fs →
      r.c ≤ r.buf.length → r.buf.length - r.c + 1 ≤ fuel →
      decodeFields fuel r = some fs := by
  induction fs with
  | nil =>
    intro fuel r h hle hfuel
    match fuel, hfuel with
    | fuel + 1, _ =>
      have hena : r.c = r.buf.length := by
        have hl := congrArg List.length h
        rw [List.length_drop] at hl
        simp [encodeFields] at hl
        omega
      rw [decodeFields]
      simp [ProtoBufReader.isEnded, hena]
  | cons f fs' ih =>
    intro fuel r h hle hfuel
    have hdecomp : r.buf.drop r.c =
        encodeVarint ((f.fieldNumber <<< 3) ||| f.wireType) ++
          (encodeVarint f.value ++ encodeFields fs') := by
      rw [h]
      simp [encodeFields, encodeField, List.append_assoc]
    have hlen := congrArg List.length hdecomp
    rw [List.length_drop, List.length_append, List.length_append] at hlen
    have hp1 : 0 < (encodeVarint ((f.fieldNumber <<< 3) ||| f.wireType)).length :=
      List.length_pos.mpr (encodeVarint_ne_nil _)
    have hp2 : 0 < (encodeVarint f.value).length :=
      List.length_pos.mpr (encodeVarint_ne_nil _)
    match fuel, hfuel with
    | fuel + 1, hfuel =>
      have hc : r.c < r.buf.length := by omega
      have hende : r.isEnded = false := by
        simp only [ProtoBufReader.isEnded, beq_eq_false_iff_ne]
        omega
      rw [decodeFields, hende]
      simp only [Bool.false_eq_true, if_neg, not_false_iff]
      rw [eatVariant_encode r _ _ hdecomp]
      have hdrop1 := drop_after_encode r _ _ hdecomp
      simp only []
      rw [eatVariant_encode
        { buf := r.buf, c := r.c + (encodeVarint ((f.fieldNumber <<< 3) ||| f.wireType)).length }
        f.value (encodeFields fs') hdrop1]
      simp only []
      have hdrop2 := drop_after_encode
        { buf := r.buf, c := r.c + (encodeVarint ((f.fieldNumber <<< 3) ||| f.wireType)).length }
        f.value (encodeFields fs') hdrop1
      have hle2 : r.c + (encodeVarint ((f.fieldNumber <<< 3) ||| f.wireType)).length +
          (encodeVarint f.value).length ≤ r.buf.length := by omega
      have hfuel2 : r.buf.length - (r.c +
          (encodeVarint ((f.fieldNumber <<< 3) ||| f.wireType)).length +
          (encodeVarint f.value).length) + 1 ≤ fuel := by omega
      rw [ih (fun g hg => hw g (List.mem_cons_of_mem f hg)) fuel _ hdrop2 hle2 hfuel2]
      rw [splitHeader_encode f.fieldNumber f.wireType (hw f (List.mem_cons_self f fs'))]

/-- Claim C5: the token codec round-trips. For every valid field set
(wire types below 8, as produced by the header split), decoding the
encoding returns the same field set; in particular the token bytes
`[0x08, 0x01]` decode to field number 1 with wire type 0 and varint value
1, and re-encoding that field yields the identical two bytes. -/
theorem claim_C5_codec_roundtrip :
    (∀ fs : List TokenField, (∀ f ∈ fs, f.wireType < 8) →
      decode (encodeFields fs) = some fs) ∧
    decode [0x08, 0x01] = some [⟨1, 0, 1⟩] ∧
    encodeFields [⟨1, 0, 1⟩] = [0x08, 0x01] := by
  refine ⟨fun fs hw => ?_, by decide, ?_⟩
  · exact decodeFields_encodeFields fs hw _ { buf := encodeFields fs, c := 0 }
      (by simp) (by simp) (by simp)
  · have hsmall : ∀ n : Nat, n < 0x80 → encodeVarint n = [n] := fun n hn => by
      rw [encodeVarint]
      simp [hn]
    have h1 : encodeField ⟨1, 0, 1⟩ = [0x08, 0x01] := by
      rw [encodeField]
      rw [show ((1 : Nat) <<< 3) ||| 0 = 8 from by decide]
      rw [hsmall 8 (by norm_num), hsmall 1 (by norm_num)]
      norm_num
    show (([⟨1, 0, 1⟩] : List TokenField).map encodeField).flatten = [0x08, 0x01]
    simp [h1]

/-- Witness for claim C5: the universally quantified round-trip applied at
a concrete two-field token. -/
theorem claim_C5_codec_roundtrip_witness :
    decode (encodeFields [⟨1, 0, 1⟩, ⟨2, 0, 300⟩]) = some [⟨1, 0, 1⟩, ⟨2, 0, 300⟩] :=
  claim_C5_codec_roundtrip.1 [⟨1, 0, 1⟩, ⟨2, 0, 300⟩] (by decide)

/-! ## Reader end-of-buffer behaviour (claims C7 and C8) -/

/-- Counterexample for claim C7: a read whose requested data extends past
the end of the buffer does not return null. `eatUInt32` on a two-byte
buffer raises a range error (Node's `readUInt32LE` throws), and `eat 5`
returns the truncated remaining bytes; only a cursor exactly at the end
yields null. -/
theorem claim_C7_counterexample :
    ProtoBufReader.eatUInt32 { buf := [1, 2], c := 0 } = .rangeError ∧
    ProtoBufReader.eat { buf := [1, 2], c := 0 } 5 =
      .ok [1, 2] { buf := [1, 2], c := 5 } ∧
    (ReadResult.rangeError : ReadResult Nat) ≠ .null := by
  refine ⟨?_, ?_, by decide⟩ <;> decide

/-- Claim C7 (amended): a read operation returns null ("no more data")
exactly when the cursor sits exactly at the end of the buffer; a read that
begins before the end but extends past it is not detected by this check. -/
theorem claim_C7_null_iff_ended (r : ProtoBufReader) (n : Nat) :
    (r.eat n = .null ↔ r.isEnded = true) ∧
    (r.eatUInt32 = .null ↔ r.isEnded = true) ∧
    (r.eatUInt64 = .null ↔ r.isEnded = true) ∧
    (r.eatVariant = .null ↔ r.isEnded = true) := by
  rw [ProtoBufReader.eat, ProtoBufReader.eatUInt32, ProtoBufReader.eatUInt64,
    ProtoBufReader.eatVariant]
  by_cases h : r.isEnded
  · simp [h]
  · simp only [h, Bool.false_eq_true, if_neg, not_false_iff, if_false]
    refine ⟨by simp [h], ?_, ?_, by simp [h]⟩ <;> split <;> simp [h]

theorem varSplit_all_cont (bytes : List Nat) (h : ∀ b ∈ bytes, b &&& 0x80 ≠ 0) :
    ProtoBufReader.varSplit bytes = bytes.length := by
  induction bytes with
  | nil => rfl
  | cons b rest ih =>
    rw [ProtoBufReader.varSplit, if_pos (h b (List.mem_cons_self b rest)),
      ih (fun x hx => h x (List.mem_cons_of_mem b hx)), List.length_cons]

/-- Counterexample for claim C8: decoding malformed input does not yield a
decode error. A truncated varint whose only byte still has the
continuation bit set (`[0x80]`) silently decodes to the value 0 (the
out-of-bounds read past the buffer terminates the scan loop), and an eat
length exceeding the remaining buffer silently returns only the remaining
bytes; neither raises an error. -/
theorem claim_C8_counterexample :
    ProtoBufReader.eatVariant { buf := [0x80], c := 0 } =
      .ok 0 { buf := [0x80], c := 2 } ∧
    ProtoBufReader.eat { buf := [1, 2], c := 1 } 5 =
      .ok [2] { buf := [1, 2], c := 6 } := by
  refine ⟨?_, ?_⟩ <;> decide

/-- Claim C8 (amended): malformed input is not rejected. A truncated
varint — a nonempty buffer suffix in which every available byte still has
the continuation bit set — is silently decoded by `eatVariant` to the
value of the available low-7-bit groups instead of a decode error, and
`eat` silently clamps a declared length exceeding the remaining buffer;
neither `eat` nor `eatVariant` can produce an error result for any input,
so no fatal decode failure ever reaches the poll that issued the read. -/
theorem claim_C8_no_decode_error (r : ProtoBufReader) (n : Nat)
    (hbytes : ∀ b ∈ r.buf.drop r.c, b &&& 0x80 ≠ 0)
    (hne : r.buf.drop r.c ≠ []) :
    r.eatVariant = .ok (ProtoBufReader.parseVariant (r.buf.drop r.c))
      { buf := r.buf, c := r.buf.length + 1 } ∧
    r.eat n ≠ .rangeError ∧ r.eatVariant ≠ .rangeError := by
  have hc : r.c < r.buf.length := by
    have hl := congrArg List.length (List.nil_append (r.buf.drop r.c))
    have hpos : 0 < (r.buf.drop r.c).length := List.length_pos.mpr hne
    rw [List.length_drop] at hpos
    omega
  have hende : r.isEnded = false := by
    simp only [ProtoBufReader.isEnded, beq_eq_false_iff_ne]
    omega
  refine ⟨?_, ?_, ?_⟩
  · rw [ProtoBufReader.eatVariant, hende]
    simp only [Bool.false_eq_true, if_neg, not_false_iff]
    rw [varSplit_all_cont _ hbytes, List.length_drop]
    have hslice : jsSlice r.buf r.c (r.c + (r.buf.length - r.c) + 1) = r.buf.drop r.c := by
      rw [jsSlice]
      exact List.take_of_length_le (by rw [List.length_drop]; omega)
    rw [hslice]
    have : r.c + (r.buf.length - r.c) + 1 = r.buf.length + 1 := by omega
    rw [this]
  · rw [ProtoBufReader.eat, hende]
    simp
  · rw [ProtoBufReader.eatVariant, hende]
    simp

/-- Witness for claim C8 (amended): the truncated varint `[0x80, 0xff]`
is silently decoded in full. -/
theorem claim_C8_no_decode_error_witness :
    ProtoBufReader.eatVariant { buf := [0x80, 0xff], c := 0 } =
      .ok (ProtoBufReader.parseVariant (List.drop 0 [0x80, 0xff]))
        { buf := [0x80, 0xff], c := 3 } :=
  (claim_C8_no_decode_error { buf := [0x80, 0xff], c := 0 } 0
    (by decide) (by decide)).1

/-! ## FetchClient: Masterchat.fetch

Embedding of the `loop: while (true)` of `Masterchat.fetch`. A network
attempt's outcome (transport failure, abortion, or a parsed JSON body) is
supplied by a script, one entry per attempt; the loop threads the retry
budget, the session's `this.isLive` flag and the current request through
the iterations and ends with either a thrown error or a `ChatResponse`. -/

/-- The statuses distinguished by the `switch (status)` in `fetch`
(`YTChatErrorStatus`); `other` is any unrecognized status (the `default`
arm). -/
inductive YTStatus where
  | permissionDenied
  | notFound
  | invalid
  | unavailable
  | internal
  | other
  deriving Repr, DecidableEq

/-- The error classes thrown by the embedded code paths: `NoPermissionError`,
`UnavailableError`, `InvalidArgumentError`, `AbortError`,
`DisabledChatError`, `MembersOnlyError`, and the plain `Error` used for
transient statuses and rethrown transport failures. -/
inductive MCError where
  | noPermission
  | unavailableErr
  | invalidArgument
  | abort
  | disabledChat
  | membersOnly
  | generic
  deriving Repr, DecidableEq

/-- A timed continuation as extracted by `getTimedContinuation`:
the next token and the server-suggested `timeoutMs`. -/
structure TimedContinuation where
  timeoutMs : Int
  token : String
  deriving Repr, DecidableEq

/-- The `continuationContents` of a successful response: the optional raw
action entries (opaque here — translating individual event payloads is
outside the core per the spec) and the next continuation. -/
structure ContinuationContents where
  actions : Option (List Nat)
  continuation : Option TimedContinuation
  deriving Repr, DecidableEq

/-- A transport-successful response body as inspected by `fetch`: the
optional structured error status, the optional continuation contents, and
the `contents` message text (`runsToString(obj.contents.messageRenderer
.text.runs)`) when that key is present. -/
structure YTChatResponse where
  error : Option YTStatus
  continuationContents : Option ContinuationContents
  contents : Option String
  deriving Repr, DecidableEq

/-- One attempt's outcome as seen by the try/catch in `fetch`. -/
inductive Attempt where
  | transport
  | abortedFetch
  | response (body : YTChatResponse)
  deriving Repr, DecidableEq

/-- The `ChatResponse` value returned by `fetch` (its `error` field is
`null` on every return path and is omitted). -/
structure ChatResponse where
  actions : List Nat
  continuation : Option TimedContinuation
  deriving Repr, DecidableEq

/-- JavaScript `/lit/.test(s)` for a literal pattern: substring test. -/
def containsSub (pat : List Char) : List Char → Bool
  | [] => pat.isPrefixOf []
  | c :: cs => pat.isPrefixOf (c :: cs) || containsSub pat cs

/-- Literal-pattern regex test on strings. -/
def reTest (pat s : String) : Bool :=
  containsSub pat.data s.data

/-- The two chat endpoints: `constants.EP_GLC` (live) and
`constants.EP_GLCR` (replay). -/
inductive Endpoint where
  | liveChat
  | liveChatReplay
  deriving Repr, DecidableEq

/-- The continuation placed in the request body by `applyNewLiveStatus`:
the caller-supplied token when one was given, else the initial
continuation built by `lrc` (live) or `rtc` (replay) with the top-chat
flag. -/
inductive ReqContinuation where
  | token (t : String)
  | lrc (top : Bool)
  | rtc (top : Bool)
  deriving Repr, DecidableEq

structure FetchRequest where
  requestUrl : Endpoint
  continuation : ReqContinuation
  deriving Repr, DecidableEq

/-- `applyNewLiveStatus(isLive)`, the inner helper of `fetch`: select the
endpoint from the live status and rebuild the request body. -/
def applyNewLiveStatus (tok : Option String) (topChat : Bool) (isLive : Bool) :
    FetchRequest where
  requestUrl := if isLive then .liveChat else .liveChatReplay
  continuation :=
    match tok with
    | some t => .token t
    | none => if isLive then .lrc topChat else .rtc topChat

/-- The state threaded through one `fetch` call: the session's
`this.isLive` flag (mutated by the live→replay fallback), the current
request, `retryRemaining`, and — recorded for the statements — the number
of attempts performed and the backoff waits awaited. -/
structure FetchState where
  isLive : Option Bool
  req : FetchRequest
  retryRemaining : Nat
  attempts : Nat
  waits : List Nat
  deriving Repr, DecidableEq

/-- The `retryInterval` constant of `fetch` (milliseconds). -/
def retryInterval : Nat := 3000

/-- The `loop: while (true)` body of `fetch`. `none` means the script was
exhausted while the loop would have issued another request. -/
def fetchGo (tok : Option String) (topChat : Bool) :
    FetchState → List Attempt → Option (Except MCError ChatResponse × FetchState)
  | _, [] => none
  | st, a :: rest =>
    let st := { st with attempts := st.attempts + 1 }
    match a with
    | .abortedFetch =>
      -- the catch block: `(err as any).type === "aborted"` throws AbortError
      -- before the retry check, regardless of remaining budget
      some (.error .abort, st)
    | .transport =>
      -- the catch block's retry path for network failures
      if st.retryRemaining > 0 then
        fetchGo tok topChat
          { st with retryRemaining := st.retryRemaining - 1,
                    waits := st.waits ++ [retryInterval] } rest
      else some (.error .generic, st)
    | .response body =>
      match body.error with
      | some status =>
        match status with
        | .permissionDenied => some (.error .noPermission, { st with retryRemaining := 0 })
        | .notFound => some (.error .unavailableErr, { st with retryRemaining := 0 })
        | .invalid => some (.error .invalidArgument, { st with retryRemaining := 0 })
        | _ =>
          -- Unavailable / Internal / default: `throw new Error(message)` is
          -- caught by the catch block and enters the same retry path
          if st.retryRemaining > 0 then
            fetchGo tok topChat
              { st with retryRemaining := st.retryRemaining - 1,
                        waits := st.waits ++ [retryInterval] } rest
          else some (.error .generic, st)
      | none =>
        match body.continuationContents with
        | none =>
          match body.contents with
          | some reason =>
            if reTest "disabled" reason then
              match st.isLive with
              | none =>
                -- live→replay fallback: switch `this.isLive`, rebuild the
                -- request, `continue loop` without touching the budget
                fetchGo tok topChat
                  { st with isLive := some false,
                            req := applyNewLiveStatus tok topChat false } rest
              | some _ => some (.error .disabledChat, st)
            else if reTest "currently unavailable" reason then
              some (.error .membersOnly, st)
            else some (.ok { actions := [], continuation := none }, st)
          | none => some (.ok { actions := [], continuation := none }, st)
        | some cc =>
          match cc.actions with
          | none => some (.ok { actions := [], continuation := cc.continuation }, st)
          | some raw =>
            -- replay unwrapping and `parseChatAction` act entry-wise on the
            -- opaque entries and are outside the embedded core
            some (.ok { actions := raw, continuation := cc.continuation }, st)

/-- A whole `fetch` call: `retryRemaining = 3`, first request built by
`applyNewLiveStatus(this.isLive ?? true)`. -/
def fetch (isLive : Option Bool) (tok : Option String) (topChat : Bool)
    (script : List Attempt) : Option (Except MCError ChatResponse × FetchState) :=
  fetchGo tok topChat
    { isLive := isLive
      req := applyNewLiveStatus tok topChat (isLive.getD true)
      retryRemaining := 3
      attempts := 0
      waits := [] } script

/-- Attempt outcomes the claim calls transient: transport-level failures
and the remote unavailable/internal statuses. -/
def Attempt.isTransient : Attempt → Bool
  | .transport => true
  | .response body => body.error == some .unavailable || body.error == some .internal
  | .abortedFetch => false

/-- A transient attempt either consumes one unit of budget and loops, or —
with the budget exhausted — rethrows the error as fatal. -/
theorem fetchGo_transient_step (tok : Option String) (top : Bool)
    (st : FetchState) (a : Attempt) (rest : List Attempt)
    (ha : a.isTransient = true) :
    fetchGo tok top st (a :: rest) =
      if st.retryRemaining > 0 then
        fetchGo tok top
          { st with attempts := st.attempts + 1,
                    retryRemaining := st.retryRemaining - 1,
                    waits := st.waits ++ [retryInterval] } rest
      else some (.error .generic, { st with attempts := st.attempts + 1 }) := by
  cases a with
  | abortedFetch => simp [Attempt.isTransient] at ha
  | transport => rw [fetchGo]
  | response body =>
    cases hbe : body.error with
    | none => simp [Attempt.isTransient, hbe] at ha
    | some status =>
      cases status <;> simp [Attempt.isTransient, hbe] at ha <;>
        rw [fetchGo, hbe]

/-- A script of only transient failures exhausts the whole budget: with
`retryRemaining = n` and at least `n + 1` scripted attempts the loop
performs exactly `n + 1` attempts, waiting the fixed interval before each
of the `n` retries, and ends by rethrowing the error. -/
theorem fetchGo_all_transient (tok : Option String) (top : Bool) :
    ∀ (script : List Attempt) (st : FetchState),
      (∀ a ∈ script, a.isTransient = true) →
      st.retryRemaining + 1 ≤ script.length →
      fetchGo tok top st script =
        some (.error .generic,
          { st with retryRemaining := 0,
                    attempts := st.attempts + st.retryRemaining + 1,
                    waits := st.waits ++ List.replicate st.retryRemaining retryInterval }) := by
  intro script
  induction script with
  | nil => intro st htr hlen; simp at hlen
  | cons a rest ih =>
    intro st htr hlen
    rw [fetchGo_transient_step tok top st a rest (htr a (List.mem_cons_self a rest))]
    cases hr : st.retryRemaining with
    | zero => simp [hr]
    | succ k =>
      simp only [hr, Nat.succ_sub_one, gt_iff_lt, Nat.succ_pos, if_pos]
      have hlen2 : k + 1 ≤ rest.length := by
        simp only [List.length_cons] at hlen
        omega
      rw [ih _ (fun x hx => htr x (List.mem_cons_of_mem a hx)) hlen2]
      simp [List.replicate_succ, List.append_assoc]
      omega

/-- Claim C2: per fetch call, transient failures (transport errors and the
remote unavailable/internal statuses) are retried with the fixed 3000 ms
backoff until the budget of 3 is exhausted — a call that receives only
transient failures performs exactly 4 attempts and then raises the error
as fatal — while permission-denied, not-found and invalid-argument
statuses force the budget to zero and fail on their first occurrence
without any retry or wait. -/
theorem claim_C2_retry_policy :
    (∀ (isLive : Option Bool) (tok : Option String) (top : Bool)
      (script : List Attempt),
      (∀ a ∈ script, a.isTransient = true) → 4 ≤ script.length →
      fetch isLive tok top script =
        some (.error .generic,
          { isLive := isLive, req := applyNewLiveStatus tok top (isLive.getD true),
            retryRemaining := 0, attempts := 4, waits := List.replicate 3 retryInterval })) ∧
    (∀ (tok : Option String) (top : Bool) (st : FetchState)
      (rest : List Attempt) (body : YTChatResponse),
      (body.error = some .permissionDenied →
        fetchGo tok top st (.response body :: rest) =
          some (.error .noPermission,
            { st with attempts := st.attempts + 1, retryRemaining := 0 })) ∧
      (body.error = some .notFound →
        fetchGo tok top st (.response body :: rest) =
          some (.error .unavailableErr,
            { st with attempts := st.attempts + 1, retryRemaining := 0 })) ∧
      (body.error = some .invalid →
        fetchGo tok top st (.response body :: rest) =
          some (.error .invalidArgument,
            { st with attempts := st.attempts + 1, retryRemaining := 0 }))) := by
  constructor
  · intro isLive tok top script htr hlen
    rw [fetch, fetchGo_all_transient tok top script _ htr (by simpa using hlen)]
    rfl
  · intro tok top st rest body
    refine ⟨fun hbe => ?_, fun hbe => ?_, fun hbe => ?_⟩ <;> rw [fetchGo, hbe]

/-- Witness for claim C2: a script of four transport failures exhausts the
budget of 3 in exactly four attempts with three 3000 ms waits, and a first
permission-denied response fails immediately with the budget forced to
zero. -/
theorem claim_C2_retry_policy_witness :
    fetch none none false [.transport, .transport, .transport, .transport] =
      some (.error .generic,
        { isLive := none, req := applyNewLiveStatus none false true,
          retryRemaining := 0, attempts := 4,
          waits := List.replicate 3 retryInterval }) ∧
    fetchGo none false
      { isLive := none, req := applyNewLiveStatus none false true,
        retryRemaining := 3, attempts := 0, waits := [] }
      [.response { error := some .permissionDenied, continuationContents := none,
                   contents := none }] =
      some (.error .noPermission,
        { isLive := none, req := applyNewLiveStatus none false true,
          retryRemaining := 0, attempts := 1, waits := [] }) :=
  ⟨claim_C2_retry_policy.1 none none false _ (by decide) (by decide),
    (claim_C2_retry_policy.2 none false _ _ _).1 rfl⟩

/-- Claim C3: a poll made while the session's mode is unknown
(`this.isLive === undefined`) that receives a response whose contents text
matches `/disabled/` switches the session to replay (`isLive := false`),
rebuilds the request for the replay endpoint, and continues the loop in
the same call without consuming any retry budget (the continuation state
keeps `retryRemaining` and the performed waits untouched). Because the
switch commits `isLive = some false`, the fallback can fire at most once
per session: by the second conjunct, any later disabled response — and any
such response on a session already committed to live or replay — raises a
Disabled error instead. -/
theorem claim_C3_live_replay_fallback (tok : Option String) (top : Bool)
    (st : FetchState) (rest : List Attempt) (body : YTChatResponse)
    (reason : String) (he : body.error = none)
    (hcc : body.continuationContents = none)
    (hct : body.contents = some reason)
    (hdis : reTest "disabled" reason = true) :
    (st.isLive = none →
      fetchGo tok top st (.response body :: rest) =
        fetchGo tok top
          { st with isLive := some false,
                    req := applyNewLiveStatus tok top false,
                    attempts := st.attempts + 1 } rest ∧
      (applyNewLiveStatus tok top false).requestUrl = .liveChatReplay) ∧
    (∀ b, st.isLive = some b →
      fetchGo tok top st (.response body :: rest) =
        some (.error .disabledChat, { st with attempts := st.attempts + 1 })) := by
  constructor
  · intro hl
    refine ⟨?_, rfl⟩
    rw [fetchGo]
    simp only [he, hcc, hct, hdis, hl, if_true]
  · intro b hl
    rw [fetchGo]
    simp only [he, hcc, hct, hdis, hl, if_true]

/-- Witness for claim C3: a concrete disabled response observed first in
unknown mode falls back to the replay request with the budget intact, and
the same response in committed live mode raises Disabled. -/
theorem claim_C3_live_replay_fallback_witness :
    fetchGo none false
      { isLive := none, req := applyNewLiveStatus none false true,
        retryRemaining := 3, attempts := 0, waits := [] }
      [.response { error := none, continuationContents := none,
                   contents := some "Chat is disabled for this live stream." }] =
      fetchGo none false
        { isLive := some false, req := applyNewLiveStatus none false false,
          retryRemaining := 3, attempts := 1, waits := [] } [] ∧
    fetchGo none false
      { isLive := some true, req := applyNewLiveStatus none false true,
        retryRemaining := 3, attempts := 0, waits := [] }
      [.response { error := none, continuationContents := none,
                   contents := some "Chat is disabled for this live stream." }] =
      some (.error .disabledChat,
        { isLive := some true, req := applyNewLiveStatus none false true,
          retryRemaining := 3, attempts := 1, waits := [] }) :=
  ⟨((claim_C3_live_replay_fallback none false _ []
      { error := none, continuationContents := none,
        contents := some "Chat is disabled for this live stream." }
      "Chat is disabled for this live stream." rfl rfl rfl (by decide)).1 rfl).1,
    (claim_C3_live_replay_fallback none false _ []
      { error := none, continuationContents := none,
        contents := some "Chat is disabled for this live stream." }
      "Chat is disabled for this live stream." rfl rfl rfl (by decide)).2 true rfl⟩

/-! ## StreamSession: Masterchat.iterate (drift-compensated waits)

The timing-relevant shape of one iteration of `iterate`: `await
this.fetch(token)` takes `fetchMs`; only after it returns is `startMs =
Date.now()` recorded; emitting the batch (the `yield`) takes `emitMs`;
then `driftMs = Date.now() - startMs` is computed, so `driftMs` equals
`emitMs`. The session's live flag is read as `this.isLive ?? true` at the
wait step. -/

structure IterEntry where
  fetchMs : Int
  emitMs : Int
  res : ChatResponse
  deriving Repr, DecidableEq

/-- The sequence of durations passed to `delay` by the loop of `iterate`:
the loop breaks when a response carries no continuation; in live mode it
waits `continuation.timeoutMs - driftMs` when that is positive and does
not wait otherwise; in replay mode (`isLive = some false`) it never
waits. -/
def iterateDelays (isLive : Option Bool) : List IterEntry → List Int
  | [] => []
  | e :: rest =>
    match e.res.continuation with
    | none => []
    | some cont =>
      if isLive.getD true then
        let driftMs := e.emitMs
        let timeoutMs := cont.timeoutMs - driftMs
        if timeoutMs > 0 then timeoutMs :: iterateDelays isLive rest
        else iterateDelays isLive rest
      else iterateDelays isLive rest

/-- Counterexample for claim C4: `startMs` is recorded after the fetch
returns, so the fetch duration never enters `driftMs`. With `timeoutMs =
5000`, a fetch that took 1200 ms and an instantaneous batch emission, the
code waits 5000 ms — not the 3800 ms the claim requires. -/
theorem claim_C4_counterexample :
    iterateDelays (some true)
      [⟨1200, 0, { actions := [], continuation := some ⟨5000, "t"⟩ }⟩,
       ⟨0, 0, { actions := [], continuation := none }⟩] = [5000] ∧
    (5000 : Int) ≠ 3800 := by
  exact ⟨by decide, by decide⟩

/-- Claim C4 (amended): on live-mode iterations the wait equals
`timeoutMs` minus the time elapsed since the fetch returned (the
batch-emission time) when that difference is positive — for `timeoutMs =
5000` and 1200 ms spent emitting, the wait is 3800 ms — no wait occurs
otherwise (every performed wait is positive, never negative), the waits
are independent of how long the fetch itself took, and in replay mode the
loop never waits between polls. -/
theorem claim_C4_drift_compensation :
    (∀ (isLive : Option Bool) (entries : List IterEntry),
      (isLive = some false → iterateDelays isLive entries = []) ∧
      (∀ d ∈ iterateDelays isLive entries, 0 < d)) ∧
    (∀ (f f' e : Int) (res : ChatResponse) (rest : List IterEntry)
      (isLive : Option Bool),
      iterateDelays isLive (⟨f, e, res⟩ :: rest) =
        iterateDelays isLive (⟨f', e, res⟩ :: rest)) ∧
    (∀ (rest : List IterEntry) (cont : TimedContinuation) (f e : Int),
      0 < cont.timeoutMs - e →
      iterateDelays (some true)
          (⟨f, e, { actions := [], continuation := some cont }⟩ :: rest) =
        (cont.timeoutMs - e) :: iterateDelays (some true) rest) ∧
    iterateDelays (some true)
      [⟨0, 1200, { actions := [], continuation := some ⟨5000, "t"⟩ }⟩,
       ⟨0, 0, { actions := [], continuation := none }⟩] = [3800] := by
  refine ⟨?_, ?_, ?_, by decide⟩
  · intro isLive entries
    induction entries with
    | nil => exact ⟨fun _ => rfl, by simp [iterateDelays]⟩
    | cons e rest ih =>
      constructor
      · intro hl
        subst hl
        rw [iterateDelays]
        cases hc : e.res.continuation with
        | none => rfl
        | some cont => simp [ih.1 rfl]
      · intro d hd
        rw [iterateDelays] at hd
        cases hc : e.res.continuation with
        | none => rw [hc] at hd; simp at hd
        | some cont =>
          rw [hc] at hd
          by_cases hlive : isLive.getD true
          · simp only [hlive, if_pos] at hd
            by_cases hpos : cont.timeoutMs - e.emitMs > 0
            · rw [if_pos hpos] at hd
              rcases List.mem_cons.mp hd with h | h
              · omega
              · exact ih.2 d h
            · rw [if_neg hpos] at hd
              exact ih.2 d hd
          · simp only [Bool.not_eq_true] at hlive
            simp only [hlive, Bool.false_eq_true, if_neg, not_false_iff] at hd
            exact ih.2 d hd
  · intro f f' e res rest isLive
    rw [iterateDelays, iterateDelays]
  · intro rest cont f e hpos
    rw [iterateDelays]
    simp only [Option.getD_some, if_pos, hpos, gt_iff_lt]

/-- Witness for claim C4 (amended): in replay mode a poll with a timed
continuation produces no wait. -/
theorem claim_C4_drift_compensation_witness :
    iterateDelays (some false)
      [⟨0, 0, { actions := [], continuation := some ⟨5000, "t"⟩ }⟩] = [] :=
  (claim_C4_drift_compensation.1 (some false)
    [⟨0, 0, { actions := [], continuation := some ⟨5000, "t"⟩ }⟩]).1 rfl

/-! ## StreamSession: Masterchat.listen / Masterchat.stop -/

/-- Lifecycle events of a session that the claims are concerned with (the
payload-carrying data / actions / chats events do not matter here). -/
inductive SessionEvent where
  | endEvent
  | errorEvent (e : MCError)
  deriving Repr, DecidableEq

/-- The listener-related state of a `Masterchat` instance: the active
listener task (by id) if any (`this.listener`), the abort flag of
`this.listenerAbortion`, and the id the next created task would get
(tracking task creation for the statements). -/
structure SessionState where
  listener : Option Nat
  aborted : Bool
  nextId : Nat
  deriving Repr, DecidableEq

/-- `get stopped() { return this.listener === null }`. -/
def stopped (s : SessionState) : Bool :=
  s.listener.isNone

/-- `listen()`: `if (this.listener) return this.listener;` — otherwise
install a fresh `AbortController` and start a new listener task. -/
def listen (s : SessionState) : Nat × SessionState :=
  match s.listener with
  | some l => (l, s)
  | none => (s.nextId,
      { listener := some s.nextId, aborted := false, nextId := s.nextId + 1 })

/-- `stop()`: a no-op without an active listener; otherwise abort the
controller and emit an `end` event. -/
def stop (s : SessionState) : SessionState × List SessionEvent :=
  match s.listener with
  | none => (s, [])
  | some _ => ({ s with aborted := true }, [.endEvent])

/-- The outcome of the listener's underlying task (`makePromise` run to
completion): the chat iterator finished normally, or threw an error. -/
inductive LoopOutcome where
  | success
  | failure (e : MCError)
  deriving Repr, DecidableEq

/-- The `.then/.catch/.finally` chain attached in `listen`: a normal end
emits `end`; a thrown `AbortError` is swallowed (`if (err instanceof
AbortError) return;`); any other error is emitted as an `error` event; in
every case the `finally` clears `this.listener`. -/
def settleListener (s : SessionState) (o : LoopOutcome) :
    SessionState × List SessionEvent :=
  ({ s with listener := none },
    match o with
    | .success => [.endEvent]
    | .failure e => if e = .abort then [] else [.errorEvent e])

/-- The guard at the top of `iterate`:
`if (signal.aborted) { throw new AbortError(); }`. -/
def iterateAbortCheck (aborted : Bool) : Option MCError :=
  if aborted then some .abort else none

/-- Modelled from the spec: `delay(timeoutMs, signal)` (defined in
`utils`, not among the provided sources) rejects with an `AbortError` when
the signal aborts during the suspension, so a loop suspended in the
drift-compensated wait — like one interrupted during a fetch, whose
rejection the catch in `fetch` converts to `AbortError` — finishes with
the Aborted outcome once `stop` has aborted the signal. -/
def loopOutcomeWhenAborted : LoopOutcome :=
  .failure .abort

/-- Claim C9: invoking `stop` on a session whose polling loop is running
(including while suspended in a drift-compensated wait) leads to the
stopped state without any error event. `stop` emits only `end` and aborts
the signal; the loop's task then finishes with the Aborted outcome
(observed at the iteration guard or inside the interrupted suspension),
which the listener's catch swallows, emitting nothing; the `finally`
clears the listener, so `stopped` holds. The Aborted outcome remains
distinguishable from a normal end only on the underlying task itself. -/
theorem claim_C9_stop_swallows_abort (s : SessionState) (l : Nat)
    (hrun : s.listener = some l) :
    (stop s).2 = [.endEvent] ∧
    (stop s).1.aborted = true ∧
    iterateAbortCheck (stop s).1.aborted = some .abort ∧
    (settleListener (stop s).1 loopOutcomeWhenAborted).2 = [] ∧
    (∀ e, SessionEvent.errorEvent e ∉
      (stop s).2 ++ (settleListener (stop s).1 loopOutcomeWhenAborted).2) ∧
    stopped (settleListener (stop s).1 loopOutcomeWhenAborted).1 = true ∧
    loopOutcomeWhenAborted ≠ .success := by
  rw [stop, hrun]
  refine ⟨rfl, rfl, rfl, rfl, ?_, rfl, by decide⟩
  intro e
  simp [settleListener, loopOutcomeWhenAborted]

/-- Witness for claim C9: stopping a concrete running session emits only
`end` and reaches the stopped state. -/
theorem claim_C9_stop_swallows_abort_witness :
    (stop ⟨some 0, false, 1⟩).2 = [.endEvent] ∧
    stopped (settleListener (stop ⟨some 0, false, 1⟩).1
      loopOutcomeWhenAborted).1 = true :=
  ⟨(claim_C9_stop_swallows_abort ⟨some 0, false, 1⟩ 0 rfl).1,
    (claim_C9_stop_swallows_abort ⟨some 0, false, 1⟩ 0 rfl).2.2.2.2.2.1⟩

/-- Claim C10: `listen` on a session whose listener is active returns the
existing listener unchanged and starts no second loop (the whole state —
including the task-creation counter — is untouched), so per session at
most one polling loop is ever active; and the session reports `stopped`
exactly when no listener is active. -/
theorem claim_C10_listen_idempotent :
    (∀ (s : SessionState) (l : Nat), s.listener = some l →
      listen s = (l, s) ∧ stopped s = false) ∧
    (∀ s : SessionState, stopped s = true ↔ s.listener = none) := by
  constructor
  · intro s l h
    rw [listen, h, stopped, h]
    exact ⟨rfl, rfl⟩
  · intro s
    cases h : s.listener <;> simp [stopped, h]

/-- Witness for claim C10: a session with active listener 5 gets the same
handle back and its state is unchanged. -/
theorem claim_C10_listen_idempotent_witness :
    listen ⟨some 5, false, 6⟩ = (5, ⟨some 5, false, 6⟩) ∧
    stopped ⟨some 5, false, 6⟩ = false :=
  claim_C10_listen_idempotent.1 ⟨some 5, false, 6⟩ 5 rfl

/-! ## StreamPool (src/pool.ts) -/

/-- A `Masterchat` instance held by the pool; `instanceId` records object
construction order (`new Masterchat(...)`), so the statements can express
that no second instance is constructed. -/
structure MCInstance where
  videoId : String
  channelId : String
  instanceId : Nat
  deriving Repr, DecidableEq

/-- The pool state: the `Map<VideoId, Masterchat>` as an association list
in insertion order, plus the count of constructed instances. -/
structure StreamPool where
  pool : List (String × MCInstance)
  constructed : Nat
  deriving Repr, DecidableEq

/-- `Map.prototype.get`: first binding of the key, if any. -/
def mapGet : List (String × MCInstance) → String → Option MCInstance
  | [], _ => none
  | (k, x) :: rest, v => if k == v then some x else mapGet rest v

/-- Number of bindings a key has in the underlying list (the pool's
invariant is that this never exceeds one). -/
def keyCount (l : List (String × MCInstance)) (w : String) : Nat :=
  (l.filter (fun kv => kv.1 == w)).length

namespace StreamPool

/-- `has(videoId)`. -/
def has (p : StreamPool) (videoId : String) : Bool :=
  (mapGet p.pool videoId).isSome

/-- `get(videoId)`. -/
def get (p : StreamPool) (videoId : String) : Option MCInstance :=
  mapGet p.pool videoId

/-- `streamCount()`. -/
def streamCount (p : StreamPool) : Nat :=
  p.pool.length

/-- `subscribe(videoId, channelId)`: when the stream is already
registered, return the registered instance; otherwise construct a new
`Masterchat`, wire its events, start listening, and register it
(`Map.set` appends a binding for a new key in insertion order). -/
def subscribe (p : StreamPool) (videoId channelId : String) :
    MCInstance × StreamPool :=
  match mapGet p.pool videoId with
  | some mc => (mc, p)
  | none =>
    let mc : MCInstance := ⟨videoId, channelId, p.constructed⟩
    (mc, { pool := p.pool ++ [(videoId, mc)], constructed := p.constructed + 1 })

/-- `_handleEnd` / `_handleError`: the pool deletes the stream's key
before re-emitting the terminal event (`Map.delete`). -/
def removeOnEnd (p : StreamPool) (videoId : String) : StreamPool :=
  { p with pool := p.pool.filter (fun kv => kv.1 != videoId) }

end StreamPool

theorem mapGet_none_keyCount (v : String) :
    ∀ l : List (String × MCInstance), mapGet l v = none → keyCount l v = 0 := by
  intro l
  induction l with
  | nil => intro _; rfl
  | cons kv rest ih =>
    intro h
    obtain ⟨k, x⟩ := kv
    rw [mapGet] at h
    by_cases hk : k == v
    · rw [if_pos hk] at h
      exact absurd h (by simp)
    · rw [if_neg hk] at h
      rw [keyCount, List.filter_cons]
      simp only [hk, Bool.false_eq_true, if_neg, not_false_iff]
      exact ih h

theorem mapGet_append_single (v : String) (x : MCInstance) :
    ∀ l : List (String × MCInstance), mapGet l v = none →
      mapGet (l ++ [(v, x)]) v = some x := by
  intro l
  induction l with
  | nil => intro _; simp [mapGet]
  | cons kv rest ih =>
    intro h
    obtain ⟨k, y⟩ := kv
    rw [mapGet] at h
    rw [List.cons_append, mapGet]
    by_cases hk : k == v
    · rw [if_pos hk] at h
      exact absurd h (by simp)
    · rw [if_neg hk] at h ⊢
      exact ih h

theorem keyCount_append (l l' : List (String × MCInstance)) (w : String) :
    keyCount (l ++ l') w = keyCount l w + keyCount l' w := by
  rw [keyCount, keyCount, keyCount, List.filter_append, List.length_append]

theorem subscribe_of_mapGet_some (p : StreamPool) (v c : String)
    (mc : MCInstance) (h : mapGet p.pool v = some mc) :
    p.subscribe v c = (mc, p) := by
  rw [StreamPool.subscribe, h]

theorem subscribe_registers (p : StreamPool) (v c : String) :
    mapGet (p.subscribe v c).2.pool v = some (p.subscribe v c).1 := by
  rw [StreamPool.subscribe]
  cases hg : mapGet p.pool v with
  | some mc => exact hg
  | none => exact mapGet_append_single v _ p.pool hg

/-- Claim C1: `subscribe` is idempotent per stream identity — when a
session for the videoId is registered (and hence not yet removed by the
end/error handlers), `subscribe` returns the registered handle, leaves the
pool untouched and constructs no new session — and both `subscribe` and
the end-of-session removal preserve the pool invariant that every stream
identity has at most one session registered; in particular subscribing
twice in a row yields the same handle and exactly one construction. -/
theorem claim_C1_pool_single_instance :
    (∀ (p : StreamPool) (v c : String) (mc : MCInstance),
      p.get v = some mc →
      p.has v = true ∧ p.subscribe v c = (mc, p)) ∧
    (∀ (p : StreamPool) (v c : String),
      (∀ w, keyCount p.pool w ≤ 1) →
      ∀ w, keyCount (p.subscribe v c).2.pool w ≤ 1) ∧
    (∀ (p : StreamPool) (v : String),
      (∀ w, keyCount p.pool w ≤ 1) →
      ∀ w, keyCount (p.removeOnEnd v).pool w ≤ 1) ∧
    (∀ (p : StreamPool) (v c c' : String),
      (p.subscribe v c).2.subscribe v c' =
        ((p.subscribe v c).1, (p.subscribe v c).2) ∧
      (p.subscribe v c).2.constructed ≤ p.constructed + 1) := by
  refine ⟨?_, ?_, ?_, ?_⟩
  · intro p v c mc h
    rw [StreamPool.has, StreamPool.subscribe]
    rw [StreamPool.get] at h
    rw [h]
    exact ⟨rfl, rfl⟩
  · intro p v c hinv w
    rw [StreamPool.subscribe]
    cases hg : mapGet p.pool v with
    | some mc => exact hinv w
    | none =>
      simp only []
      rw [keyCount_append]
      by_cases hw : v == w
      · have hvw : v = w := by simpa using hw
        subst hvw
        rw [mapGet_none_keyCount v p.pool hg]
        simp [keyCount]
      · have h0 : keyCount [(v, (⟨v, c, p.constructed⟩ : MCInstance))] w = 0 := by
          simp [keyCount, hw]
        rw [h0]
        simpa using hinv w
  · intro p v hinv w
    rw [StreamPool.removeOnEnd]
    calc keyCount (p.pool.filter (fun kv => kv.1 != v)) w
        ≤ keyCount p.pool w :=
          List.Sublist.length_le ((List.filter_sublist p.pool).filter _)
      _ ≤ 1 := hinv w
  · intro p v c c'
    constructor
    · exact subscribe_of_mapGet_some _ v c' _ (subscribe_registers p v c)
    · rw [StreamPool.subscribe]
      cases hg : mapGet p.pool v with
      | some mc => exact Nat.le_succ p.constructed
      | none => exact Nat.le_refl (p.constructed + 1)

/-- Witness for claim C1: subscribing the same stream twice on an empty
pool returns the instance constructed by the first call and leaves the
pool unchanged, with exactly one construction. -/
theorem claim_C1_pool_single_instance_witness :
    StreamPool.subscribe (StreamPool.subscribe ⟨[], 0⟩ "v" "c").2 "v" "c2" =
      ((StreamPool.subscribe ⟨[], 0⟩ "v" "c").1,
        (StreamPool.subscribe ⟨[], 0⟩ "v" "c").2) ∧
    keyCount (StreamPool.subscribe ⟨[], 0⟩ "v" "c").2.pool "v" ≤ 1 :=
  ⟨(claim_C1_pool_single_instance.2.2.2 ⟨[], 0⟩ "v" "c" "c2").1,
    claim_C1_pool_single_instance.2.1 ⟨[], 0⟩ "v" "c" (fun _ => Nat.zero_le 1) "v"⟩

end Masterchat
